import Mathlib

/-!
Shallow embedding of the flight-simulator core
(`src/cli/flight_simulator/src/main.rs`).

The simulation state (`struct Game`) and its operations `update`, `draw`,
`is_collision`, together with the jump-request arm of the `main` input loop,
are translated into executable Lean definitions:

* `Instant` is modelled as a timestamp in milliseconds (`Nat`);
  `Instant::duration_since` saturates at zero, matching Nat subtraction.
* Randomness is external (an opaque capability per the design): the spawn
  roll `gen_ratio(1, 20)` and the glyph choice `BUILDINGS.choose(..)` are
  passed in as oracle arguments `roll : Bool` and `glyph : Char`.
  (Each entry of `BUILDINGS` is a non-empty string, so `chars().next().unwrap()`
  always yields its first character; obstacles carry that character.)
* `usize` saturating arithmetic: `saturating_add` is `min (x + 1) USIZE_MAX`,
  `saturating_sub` coincides with truncated Nat subtraction.
* `score : u32` is incremented by a plain `+= 1`; we keep the wrapped value
  (`% 2^32`, the release-build semantics) and expose the overflow condition
  separately as `scoreAddOverflows`.
* The frame buffer `Vec<Vec<char>>` is rebuilt from blanks at the start of
  every `draw` (the code clears every cell first and never reads the buffer
  before clearing), so `draw` is modelled as a pure function from the state
  to the composed buffer.  Rust's panicking index-assignment is modelled by
  the total `setCell` (out-of-bounds writes are dropped); the panic
  condition itself is captured by `drawPanics`.
-/

def JUMP_HEIGHT : Nat := 5
def GAME_WIDTH : Nat := 80
def GAME_HEIGHT : Nat := 10
def GAME_SPEED : Nat := 50
def PLANE : Char := '🛩'
def GROUND : Char := '▁'
def BUILDINGS : List Char := ['🏠', '🏢', '🏫', '🏛', '🏰']

def USIZE_MAX : Nat := 2 ^ 64 - 1
def U32_MOD : Nat := 2 ^ 32

structure Game where
  plane_y : Nat
  jumping : Bool
  obstacles : List (Nat × Char)
  score : Nat
  last_update : Nat
  ground_offset : Nat
deriving Repr, DecidableEq

/-- `Game::new()`, with the creation instant passed in. -/
def Game.new (t0 : Nat) : Game :=
  { plane_y := 0
    jumping := false
    obstacles := []
    score := 0
    last_update := t0
    ground_offset := 0 }

/-- Lines 53–60 of `Game::update`: plane physics.  If jumping,
`plane_y.saturating_add(1)` and the apex check; otherwise gravity
(`plane_y.saturating_sub(1)` guarded by `plane_y > 0`). -/
def actorStep : Nat × Bool → Nat × Bool
  | (py, jumping) =>
    if jumping then
      let y := min (py + 1) USIZE_MAX
      if JUMP_HEIGHT ≤ y then (y, false) else (y, jumping)
    else if 0 < py then (py - 1, jumping)
    else (py, jumping)

/-- Lines 66–69 of `Game::update`: move every obstacle one column left
(`saturating_sub`) and retain only those with `x > 0`. -/
def advanceObs (l : List (Nat × Char)) : List (Nat × Char) :=
  (l.map (fun ob => (ob.1 - 1, ob.2))).filter (fun ob => decide (0 < ob.1))

/-- Lines 66–75 of `Game::update`: obstacle advance/retire, then spawn a new
obstacle at the rightmost column when the roll succeeds and no obstacle
already occupies that column. -/
def stepObs (l : List (Nat × Char)) (roll : Bool) (glyph : Char) :
    List (Nat × Char) :=
  if roll && !((advanceObs l).any (fun ob => ob.1 == GAME_WIDTH - 1)) then
    advanceObs l ++ [(GAME_WIDTH - 1, glyph)]
  else advanceObs l

/-- Lines 53–77 of `Game::update`: the body that runs on an admitted tick
(plane physics, ground scroll, obstacle advance/retire/spawn, score). -/
def Game.tick (g : Game) (roll : Bool) (glyph : Char) : Game :=
  -- lines 53-60: plane physics (new plane_y, new jumping flag)
  let plane := actorStep (g.plane_y, g.jumping)
  -- line 63: move ground from right to left
  let off := (g.ground_offset + GAME_WIDTH - 1) % GAME_WIDTH
  -- lines 66-75: obstacle advance, retire, spawn
  let obs := stepObs g.obstacles roll glyph
  -- line 77: score += 1 (u32; the wrapped value is kept)
  { g with plane_y := plane.1, jumping := plane.2, ground_offset := off,
           obstacles := obs, score := (g.score + 1) % U32_MOD }

/-- `Game::update` (lines 46–78): the tick gate plus the admitted-tick body. -/
def Game.update (g : Game) (now : Nat) (roll : Bool) (glyph : Char) : Game :=
  if now - g.last_update < GAME_SPEED then g
  else Game.tick { g with last_update := now } roll glyph

/-- The jump-request arm of the input match in `main` (lines 146–148):
`KeyCode::Char(' ') | KeyCode::Up if !game.jumping && game.plane_y == 0`. -/
def Game.requestJump (g : Game) : Game :=
  if !g.jumping && g.plane_y == 0 then { g with jumping := true } else g

/-- `Game::is_collision` (lines 130–132). -/
def Game.is_collision (g : Game) : Bool :=
  g.obstacles.any (fun ob => ob.1 == 2 && g.plane_y == 0)

/-- The states `main` can reach: the initial state, jump requests, and
`update` calls with arbitrary clock readings and random-oracle outcomes. -/
inductive Reachable : Game → Prop where
  | init : ∀ t0, Reachable (Game.new t0)
  | jump : ∀ {g}, Reachable g → Reachable g.requestJump
  | step : ∀ {g}, Reachable g → ∀ now roll glyph, Reachable (g.update now roll glyph)

/-- Obstacle-list invariant: every live obstacle sits in a column between 1
and the rightmost column, and the list is strictly increasing in `x` in
insertion (spawn) order. -/
def obstaclesInv (l : List (Nat × Char)) : Prop :=
  (∀ ob ∈ l, 1 ≤ ob.1 ∧ ob.1 ≤ GAME_WIDTH - 1) ∧
  l.Pairwise (fun a b => a.1 < b.1)

/-- The state invariant maintained by the session loop. -/
def GameInv (g : Game) : Prop :=
  g.plane_y ≤ JUMP_HEIGHT ∧
  (g.jumping = true → g.plane_y < JUMP_HEIGHT) ∧
  obstaclesInv g.obstacles ∧
  g.ground_offset < GAME_WIDTH ∧
  g.score < U32_MOD

/-- Two admitted ticks from the initial state with the spawn roll forced
true: leaves two obstacles on screen. -/
def twoSpawns : Game := ((Game.new 0).update 50 true '🏠').update 100 true '🏢'

/-- `n` admitted ticks in a row, feeding the `k`-th spawn-roll/glyph oracle
outcome to the `k`-th tick. -/
def tickSeq (g : Game) (o : Nat → Bool × Char) : Nat → Game
  | 0 => g
  | n + 1 => (tickSeq g o n).tick (o n).1 (o n).2

/-- The actor components after `n` admitted ticks from a freshly requested
jump (grounded, `jumping` just set). -/
def actorIter : Nat → Nat × Bool
  | 0 => (0, true)
  | n + 1 => actorStep (actorIter n)

/-- Overflow condition of `self.score += 1` (line 77): `score` is a `u32`,
and the plain increment overflows exactly when `score` is `u32::MAX`
(a panic in debug builds, a wrap in release builds). -/
def scoreAddOverflows (g : Game) : Bool := decide (U32_MOD ≤ g.score + 1)

/-- Panic conditions of the arithmetic in `Game::update`: the plain `u32`
score increment (line 77) and the `usize` sum `ground_offset + GAME_WIDTH`
(line 63); the saturating operations on `plane_y` and obstacle positions
cannot overflow or underflow. -/
def updatePanics (g : Game) : Bool :=
  scoreAddOverflows g || decide (USIZE_MAX < g.ground_offset + GAME_WIDTH)

/-- Panic condition of `Game::draw`: line 95 computes the `usize` difference
`GAME_HEIGHT - 2 - plane_y`, which underflows iff `plane_y > GAME_HEIGHT - 2`
(and would then also index out of bounds).  Every other access is in bounds
by construction: the ground column is reduced `mod GAME_WIDTH`, obstacle
writes are guarded by `x < GAME_WIDTH`, and the `BUILDINGS` entries are
non-empty so `chars().next().unwrap()` succeeds. -/
def drawPanics (g : Game) : Bool := decide (GAME_HEIGHT - 2 < g.plane_y)

/-- `n` admitted `update` calls spaced exactly `GAME_SPEED` ms apart, with
the spawn roll always failing. -/
def iterN : Nat → Game
  | 0 => Game.new 0
  | n + 1 => (iterN n).update ((n + 1) * GAME_SPEED) false ' '

/-- A frame-buffer cell write `self.buffer[r][c] = ch`.  Total: a write
outside the buffer is dropped (every write `draw` actually performs is in
bounds; the panic conditions are tracked by `drawPanics`). -/
def setCell (buf : List (List Char)) (r c : Nat) (ch : Char) :
    List (List Char) :=
  buf.set r ((buf.getD r []).set c ch)

/-- Read a buffer cell, space when out of range. -/
def getCell (buf : List (List Char)) (r c : Nat) : Char :=
  (buf.getD r []).getD c ' '

/-- The cleared buffer: `GAME_HEIGHT` rows of `GAME_WIDTH` spaces (the
buffer allocated in `Game::new`, also the result of the clear loop at
lines 81-86 of `draw`). -/
def blankBuffer : List (List Char) :=
  List.replicate GAME_HEIGHT (List.replicate GAME_WIDTH ' ')

/-- Write `GROUND` into one row at each column of `ps` in order — the write
sequence the ground loop performs inside row `GAME_HEIGHT - 1`. -/
def writeRow (ps : List Nat) (row : List Char) : List Char :=
  ps.foldl (fun row c => row.set c GROUND) row

/-- Write `GROUND` into row `GAME_HEIGHT - 1` at each column of `cs` in
order — the buffer-level view of the ground loop. -/
def writeGround (cs : List Nat) (buf : List (List Char)) :
    List (List Char) :=
  cs.foldl (fun b c => setCell b (GAME_HEIGHT - 1) c GROUND) buf

/-- `Game::draw` (lines 80-104) as a pure compositor: the code clears every
cell and rewrites the buffer from scratch, so the composed buffer is a
function of the state alone. -/
def Game.draw (g : Game) : List (List Char) :=
  -- lines 81-86: clear buffer
  let buf := blankBuffer
  -- lines 89-92: draw ground at (x + ground_offset) % GAME_WIDTH
  let buf := (List.range GAME_WIDTH).foldl
    (fun b x => setCell b (GAME_HEIGHT - 1) ((x + g.ground_offset) % GAME_WIDTH) GROUND)
    buf
  -- lines 94-96: draw plane on the left side
  let buf := setCell buf (GAME_HEIGHT - 2 - g.plane_y) 2 PLANE
  -- lines 98-103: draw obstacles (buildings), guarded by x < GAME_WIDTH
  g.obstacles.foldl
    (fun b ob => if ob.1 < GAME_WIDTH then setCell b (GAME_HEIGHT - 2) ob.1 ob.2 else b)
    buf

/-- The (row, column) indices of the cell writes `draw` performs after the
clear, in execution order: the ground row, the plane, and the guarded
obstacle writes. -/
def Game.drawWrites (g : Game) : List (Nat × Nat) :=
  (List.range GAME_WIDTH).map
    (fun x => (GAME_HEIGHT - 1, (x + g.ground_offset) % GAME_WIDTH))
  ++ [(GAME_HEIGHT - 2 - g.plane_y, 2)]
  ++ (g.obstacles.filter (fun ob => decide (ob.1 < GAME_WIDTH))).map
    (fun ob => (GAME_HEIGHT - 2, ob.1))

/-- C6: when the elapsed time since `last_update` is below `GAME_SPEED`
milliseconds, `update` returns the state unchanged (every field); on an
admitted tick it records `now` in `last_update`. -/
theorem update_gate (g : Game) (now : Nat) (roll : Bool) (glyph : Char) :
    (now - g.last_update < GAME_SPEED → g.update now roll glyph = g) ∧
    (GAME_SPEED ≤ now - g.last_update →
      (g.update now roll glyph).last_update = now) := by
  constructor
  · intro h
    simp [Game.update, h]
  · intro h
    rw [Game.update, if_neg (Nat.not_lt.mpr h)]
    rfl

/-- Witness for C6: a too-early clock reading leaves the state untouched, and
an admitted tick stamps the new reference point. -/
theorem update_gate_witness :
    (Game.new 5).update 30 true '🏠' = Game.new 5 ∧
    ((Game.new 0).update 50 true '🏠').last_update = 50 := by
  refine ⟨?_, ?_⟩
  · exact (update_gate (Game.new 5) 30 true '🏠').1 (by decide)
  · exact (update_gate (Game.new 0) 50 true '🏠').2 (by decide)

/-- C7: a jump request is a strict no-op whenever the actor is airborne or
already jumping, and it merely sets `jumping` when grounded and idle. -/
theorem requestJump_spec (g : Game) :
    (0 < g.plane_y ∨ g.jumping = true → g.requestJump = g) ∧
    (g.plane_y = 0 ∧ g.jumping = false →
      g.requestJump = { g with jumping := true }) := by
  constructor
  · intro h
    rcases h with h | h
    · simp [Game.requestJump]
      intro hj
      omega
    · simp [Game.requestJump, h]
  · rintro ⟨hy, hj⟩
    simp [Game.requestJump, hy, hj]

/-- Witness for C7: an airborne state is left exactly as it was, and a
grounded idle state starts jumping. -/
theorem requestJump_spec_witness :
    Game.requestJump ⟨3, false, [], 7, 0, 0⟩ = ⟨3, false, [], 7, 0, 0⟩ ∧
    Game.requestJump ⟨0, false, [], 7, 0, 0⟩ = ⟨0, true, [], 7, 0, 0⟩ := by
  refine ⟨?_, ?_⟩
  · exact (requestJump_spec ⟨3, false, [], 7, 0, 0⟩).1 (Or.inl (by decide))
  · exact (requestJump_spec ⟨0, false, [], 7, 0, 0⟩).2 ⟨rfl, rfl⟩

/-- C1: `is_collision` is true iff some obstacle sits at column 2 and the
actor is grounded; in particular it is false whenever the actor is airborne. -/
theorem collision_iff (g : Game) :
    (g.is_collision = true ↔ (∃ ob ∈ g.obstacles, ob.1 = 2) ∧ g.plane_y = 0) ∧
    (0 < g.plane_y → g.is_collision = false) := by
  constructor
  · simp only [Game.is_collision, List.any_eq_true, Bool.and_eq_true, beq_iff_eq]
    constructor
    · rintro ⟨ob, hmem, hx, hy⟩
      exact ⟨⟨ob, hmem, hx⟩, hy⟩
    · rintro ⟨⟨ob, hmem, hx⟩, hy⟩
      exact ⟨ob, hmem, hx, hy⟩
  · intro hpos
    simp only [Game.is_collision, List.any_eq_false, Bool.and_eq_true, beq_iff_eq, not_and]
    intro ob _ _
    omega

/-- Witness for C1 at concrete states: obstacle at column 2, grounded vs airborne. -/
theorem collision_iff_witness :
    Game.is_collision ⟨0, false, [(2, '🏠')], 0, 0, 0⟩ = true ∧
    Game.is_collision ⟨1, false, [(2, '🏠')], 0, 0, 0⟩ = false := by
  refine ⟨?_, ?_⟩
  · exact (collision_iff ⟨0, false, [(2, '🏠')], 0, 0, 0⟩).1.mpr
      ⟨⟨(2, '🏠'), by decide, rfl⟩, rfl⟩
  · exact (collision_iff ⟨1, false, [(2, '🏠')], 0, 0, 0⟩).2 (by decide)

theorem mem_advanceObs {l : List (Nat × Char)} {ob' : Nat × Char}
    (h : ob' ∈ advanceObs l) :
    0 < ob'.1 ∧ ∃ ob ∈ l, ob' = (ob.1 - 1, ob.2) := by
  unfold advanceObs at h
  rcases List.mem_filter.mp h with ⟨hm, hp⟩
  rcases List.mem_map.mp hm with ⟨ob, hob, rfl⟩
  exact ⟨by simpa using hp, ob, hob, rfl⟩

theorem advanceObs_pairwise {l : List (Nat × Char)}
    (hb : ∀ ob ∈ l, 1 ≤ ob.1)
    (hp : l.Pairwise (fun a b => a.1 < b.1)) :
    (advanceObs l).Pairwise (fun a b => a.1 < b.1) := by
  unfold advanceObs
  refine List.Pairwise.filter _ ?_
  rw [List.pairwise_map]
  refine List.Pairwise.imp_of_mem ?_ hp
  intro a b ha _ hlt
  have h1 := hb a ha
  simp only []
  omega

theorem stepObs_inv {l : List (Nat × Char)} (roll : Bool) (glyph : Char)
    (hb : ∀ ob ∈ l, 1 ≤ ob.1 ∧ ob.1 ≤ GAME_WIDTH - 1)
    (hp : l.Pairwise (fun a b => a.1 < b.1)) :
    obstaclesInv (stepObs l roll glyph) := by
  have hadv : ∀ ob' ∈ advanceObs l, 1 ≤ ob'.1 ∧ ob'.1 ≤ GAME_WIDTH - 2 := by
    intro ob' h
    rcases mem_advanceObs h with ⟨hpos, ob, hob, rfl⟩
    have h2 := (hb ob hob).2
    simp only [GAME_WIDTH] at h2 ⊢
    omega
  have hpadv := advanceObs_pairwise (fun ob h => (hb ob h).1) hp
  unfold stepObs
  split
  · constructor
    · intro ob' h
      rcases List.mem_append.mp h with h | h
      · have := hadv ob' h
        simp only [GAME_WIDTH] at this ⊢
        omega
      · simp only [List.mem_singleton] at h
        subst h
        simp [GAME_WIDTH]
    · rw [List.pairwise_append]
      refine ⟨hpadv, List.pairwise_singleton _ _, ?_⟩
      intro a ha b hbmem
      simp only [List.mem_singleton] at hbmem
      subst hbmem
      have := hadv a ha
      simp only [GAME_WIDTH] at this ⊢
      omega
  · refine ⟨fun ob' h => ?_, hpadv⟩
    have := hadv ob' h
    simp only [GAME_WIDTH] at this ⊢
    omega

theorem actorStep_inv {py : Nat} {j : Bool}
    (h1 : py ≤ JUMP_HEIGHT) (h2 : j = true → py < JUMP_HEIGHT) :
    (actorStep (py, j)).1 ≤ JUMP_HEIGHT ∧
    ((actorStep (py, j)).2 = true → (actorStep (py, j)).1 < JUMP_HEIGHT) := by
  cases j with
  | false =>
    simp only [actorStep, Bool.false_eq_true, if_false]
    split
    · exact ⟨by omega, by simp⟩
    · exact ⟨h1, by simp⟩
  | true =>
    have hpy : py < JUMP_HEIGHT := h2 rfl
    have hmin : min (py + 1) USIZE_MAX = py + 1 := by
      refine Nat.min_eq_left ?_
      have h6 : JUMP_HEIGHT ≤ USIZE_MAX := by decide
      omega
    simp only [actorStep, if_true, hmin]
    split
    · exact ⟨by omega, by simp⟩
    · rename_i hlt
      exact ⟨by omega, fun _ => by omega⟩

theorem tick_inv {g : Game} (h : GameInv g) (roll : Bool) (glyph : Char) :
    GameInv (g.tick roll glyph) := by
  obtain ⟨h1, h2, ⟨hb, hp⟩, _hoff, _hsc⟩ := h
  have hact := actorStep_inv h1 h2
  exact ⟨hact.1, hact.2, stepObs_inv roll glyph hb hp,
    Nat.mod_lt _ (by decide), Nat.mod_lt _ (by decide)⟩

theorem requestJump_inv {g : Game} (h : GameInv g) : GameInv g.requestJump := by
  obtain ⟨h1, h2, hobs, hoff, hsc⟩ := h
  unfold Game.requestJump
  split
  · rename_i hc
    simp only [Bool.and_eq_true, Bool.not_eq_true', beq_iff_eq] at hc
    exact ⟨h1, fun _ => by simp only [JUMP_HEIGHT]; omega, hobs, hoff, hsc⟩
  · exact ⟨h1, h2, hobs, hoff, hsc⟩

theorem update_inv {g : Game} (h : GameInv g) (now : Nat) (roll : Bool)
    (glyph : Char) : GameInv (g.update now roll glyph) := by
  unfold Game.update
  split
  · exact h
  · exact tick_inv h roll glyph

theorem reachable_inv {g : Game} (h : Reachable g) : GameInv g := by
  induction h with
  | init t0 =>
    refine ⟨Nat.zero_le _, by simp [Game.new], ⟨?_, ?_⟩, ?_, ?_⟩
    · simp [Game.new]
    · simp [Game.new]
    · simp [Game.new, GAME_WIDTH]
    · simp [Game.new, U32_MOD]
  | jump _ ih => exact requestJump_inv ih
  | step _ now roll glyph ih => exact update_inv ih now roll glyph

/-- C2: in every state the session loop can reach — any interleaving of jump
requests and `update` calls — the actor's height stays between 0 and
`JUMP_HEIGHT` (the lower bound is inherent to `Nat`). -/
theorem plane_y_le_jump_height (g : Game) (h : Reachable g) :
    g.plane_y ≤ JUMP_HEIGHT :=
  (reachable_inv h).1

/-- Witness for C2 at a concrete reachable state (one admitted tick). -/
theorem plane_y_le_jump_height_witness :
    ((Game.new 0).update 50 false ' ').plane_y ≤ JUMP_HEIGHT :=
  plane_y_le_jump_height _ (Reachable.step (Reachable.init 0) 50 false ' ')

theorem countP_rightmost_le_one :
    ∀ l : List (Nat × Char), l.Pairwise (fun a b => a.1 < b.1) →
      l.countP (fun ob => ob.1 == GAME_WIDTH - 1) ≤ 1 := by
  intro l hl
  induction l with
  | nil => simp
  | cons hd tl ih =>
    rw [List.pairwise_cons] at hl
    rw [List.countP_cons]
    by_cases hhd : hd.1 = GAME_WIDTH - 1
    · have htl : tl.countP (fun ob => ob.1 == GAME_WIDTH - 1) = 0 := by
        refine List.countP_eq_zero.mpr ?_
        intro b hbmem
        have := hl.1 b hbmem
        simp only [beq_iff_eq]
        omega
      simp [htl, hhd]
    · have : (hd.1 == GAME_WIDTH - 1) = false := by
        simp [hhd]
      simp only [this, if_false, Nat.add_zero]
      exact ih hl.2

/-- C4: in every reachable state at most one obstacle occupies the
rightmost column `GAME_WIDTH - 1` — the spawn throttle invariant, which
holds for every outcome of the spawn roll, including a roll that always
succeeds. -/
theorem spawn_throttle (g : Game) (h : Reachable g) :
    g.obstacles.countP (fun ob => ob.1 == GAME_WIDTH - 1) ≤ 1 :=
  countP_rightmost_le_one _ (reachable_inv h).2.2.1.2

/-- Witness for C4 at a concrete reachable state with two forced spawns. -/
theorem spawn_throttle_witness :
    twoSpawns.obstacles.countP (fun ob => ob.1 == GAME_WIDTH - 1) ≤ 1 :=
  spawn_throttle _
    (Reachable.step (Reachable.step (Reachable.init 0) 50 true '🏠')
      100 true '🏢')

theorem stepObs_mem {l : List (Nat × Char)} {roll : Bool} {glyph : Char}
    {ob' : Nat × Char} (h : ob' ∈ stepObs l roll glyph) :
    ob' = (GAME_WIDTH - 1, glyph) ∨ ∃ ob ∈ l, ob'.1 ≤ ob.1 ∧ ob'.2 = ob.2 := by
  have hadv : ∀ x ∈ advanceObs l, ∃ ob ∈ l, x.1 ≤ ob.1 ∧ x.2 = ob.2 := by
    intro x hx
    rcases mem_advanceObs hx with ⟨_, ob, hob, rfl⟩
    exact ⟨ob, hob, Nat.sub_le _ _, rfl⟩
  unfold stepObs at h
  split at h
  · rcases List.mem_append.mp h with h | h
    · exact Or.inr (hadv _ h)
    · simp only [List.mem_singleton] at h
      exact Or.inl h
  · exact Or.inr (hadv _ h)

/-- C5 counterexample: after two admitted ticks with forced spawns, the
obstacle list in insertion (spawn) order carries x-positions `[78, 79]`,
which is *not* a non-increasing sequence — the claimed sort direction is
wrong for the code. -/
theorem obstacle_order_cex :
    Reachable twoSpawns ∧
    twoSpawns.obstacles.map Prod.fst = [78, 79] ∧
    ¬ (twoSpawns.obstacles.map Prod.fst).Pairwise (fun a b => b ≤ a) := by
  refine ⟨Reachable.step (Reachable.step (Reachable.init 0) 50 true '🏠')
    100 true '🏢', by decide, by decide⟩

/-- C5 amended: in every reachable state the obstacle x-positions are
*strictly increasing* in insertion (spawn) order — equivalently, sorted by
increasing x with the most recent spawn last — and across one admitted tick
every obstacle either is the fresh spawn at the rightmost column or comes
from an old obstacle with an x-position that did not increase. -/
theorem obstacle_order_amended (g : Game) (h : Reachable g) :
    g.obstacles.Pairwise (fun a b => a.1 < b.1) ∧
    ∀ roll glyph ob', ob' ∈ (g.tick roll glyph).obstacles →
      ob' = (GAME_WIDTH - 1, glyph) ∨
      ∃ ob ∈ g.obstacles, ob'.1 ≤ ob.1 ∧ ob'.2 = ob.2 := by
  refine ⟨(reachable_inv h).2.2.1.2, ?_⟩
  intro roll glyph ob' hmem
  exact stepObs_mem hmem

/-- Witness for the amended C5 at a concrete reachable state. -/
theorem obstacle_order_amended_witness :
    twoSpawns.obstacles.Pairwise (fun a b => a.1 < b.1) :=
  (obstacle_order_amended twoSpawns
    (Reachable.step (Reachable.step (Reachable.init 0) 50 true '🏠')
      100 true '🏢')).1

theorem tickSeq_actorIter (g : Game) (o : Nat → Bool × Char)
    (hy : g.plane_y = 0) (hj : g.jumping = false) :
    ∀ n, ((tickSeq g.requestJump o n).plane_y,
          (tickSeq g.requestJump o n).jumping) = actorIter n := by
  intro n
  induction n with
  | zero =>
    show (g.requestJump.plane_y, g.requestJump.jumping) = (0, true)
    simp [Game.requestJump, hy, hj]
  | succ n ih =>
    show actorStep ((tickSeq g.requestJump o n).plane_y,
      (tickSeq g.requestJump o n).jumping) = actorIter (n + 1)
    rw [ih]
    rfl

/-- C3: from a grounded, non-jumping state, one jump request followed by
admitted ticks with no further request climbs `1..JUMP_HEIGHT` one unit per
tick, flips `jumping` to false exactly upon reaching `JUMP_HEIGHT`, then
descends one unit per tick, so the actor is grounded again after exactly
`2 * JUMP_HEIGHT` ticks and not before. -/
theorem jump_trajectory (g : Game) (o : Nat → Bool × Char)
    (hy : g.plane_y = 0) (hj : g.jumping = false) :
    (∀ n, 1 ≤ n → n ≤ JUMP_HEIGHT →
      (tickSeq g.requestJump o n).plane_y = n ∧
      (tickSeq g.requestJump o n).jumping = decide (n < JUMP_HEIGHT)) ∧
    (∀ n, JUMP_HEIGHT ≤ n → n ≤ 2 * JUMP_HEIGHT →
      (tickSeq g.requestJump o n).plane_y = 2 * JUMP_HEIGHT - n ∧
      (tickSeq g.requestJump o n).jumping = false) ∧
    (∀ n, 1 ≤ n → n < 2 * JUMP_HEIGHT →
      0 < (tickSeq g.requestJump o n).plane_y) ∧
    (tickSeq g.requestJump o (2 * JUMP_HEIGHT)).plane_y = 0 := by
  have hact := tickSeq_actorIter g o hy hj
  have hact1 : ∀ n, (tickSeq g.requestJump o n).plane_y = (actorIter n).1 :=
    fun n => congrArg Prod.fst (hact n)
  have hact2 : ∀ n, (tickSeq g.requestJump o n).jumping = (actorIter n).2 :=
    fun n => congrArg Prod.snd (hact n)
  refine ⟨?_, ?_, ?_, ?_⟩
  · intro n hn1 hn2
    rw [hact1, hact2]
    simp only [JUMP_HEIGHT] at hn2 ⊢
    interval_cases n <;> exact ⟨by decide, by decide⟩
  · intro n hn1 hn2
    rw [hact1, hact2]
    simp only [JUMP_HEIGHT] at hn1 hn2 ⊢
    interval_cases n <;> exact ⟨by decide, by decide⟩
  · intro n hn1 hn2
    rw [hact1]
    simp only [JUMP_HEIGHT] at hn2
    interval_cases n <;> decide
  · rw [hact1]
    decide

/-- Witness for C3: the full round trip from the initial state takes exactly
`2 * JUMP_HEIGHT` ticks. -/
theorem jump_trajectory_witness :
    (Game.new 0).plane_y = 0 ∧ (Game.new 0).jumping = false ∧
    (tickSeq (Game.new 0).requestJump (fun _ => (false, ' '))
      (2 * JUMP_HEIGHT)).plane_y = 0 :=
  ⟨rfl, rfl, (jump_trajectory (Game.new 0) (fun _ => (false, ' '))
    rfl rfl).2.2.2⟩

theorem iterN_fields (n : Nat) :
    (iterN n).last_update = n * GAME_SPEED ∧ (iterN n).score = n % U32_MOD := by
  induction n with
  | zero => exact ⟨rfl, rfl⟩
  | succ n ih =>
    obtain ⟨hl, hs⟩ := ih
    have hgate : ¬ ((n + 1) * GAME_SPEED - (iterN n).last_update < GAME_SPEED) := by
      rw [hl]
      simp only [GAME_SPEED]
      omega
    show ((iterN n).update ((n + 1) * GAME_SPEED) false ' ').last_update =
        (n + 1) * GAME_SPEED ∧
      ((iterN n).update ((n + 1) * GAME_SPEED) false ' ').score =
        (n + 1) % U32_MOD
    rw [Game.update, if_neg hgate]
    refine ⟨rfl, ?_⟩
    show ((iterN n).score + 1) % U32_MOD = (n + 1) % U32_MOD
    have h1 : (1 : Nat) % U32_MOD = 1 := Nat.mod_eq_of_lt (by decide)
    rw [hs]
    conv_rhs => rw [Nat.add_mod, h1]

theorem iterN_reachable (n : Nat) : Reachable (iterN n) := by
  induction n with
  | zero => exact Reachable.init 0
  | succ n ih => exact Reachable.step ih ((n + 1) * GAME_SPEED) false ' '

/-- C8 counterexample: the state reached after `2^32 - 1` admitted ticks is
reachable and its pending `score += 1` overflows `u32` — the score counter
is a plain, non-saturating add, so "no overflow is possible on any
reachable state" is false. -/
theorem score_overflow_cex :
    Reachable (iterN (U32_MOD - 1)) ∧
    scoreAddOverflows (iterN (U32_MOD - 1)) = true := by
  refine ⟨iterN_reachable _, ?_⟩
  have hs := (iterN_fields (U32_MOD - 1)).2
  have hpos : (0 : Nat) < U32_MOD := by decide
  have hlt : U32_MOD - 1 < U32_MOD := by omega
  rw [Nat.mod_eq_of_lt hlt] at hs
  simp only [scoreAddOverflows, hs, decide_eq_true_eq]
  omega

/-- C8 amended: on every reachable state `draw` and `is_collision` cannot
panic, and the only fallible arithmetic in `update` is the plain `u32`
score increment, which overflows exactly when the score has reached
`u32::MAX` (after `2^32` admitted ticks); all other arithmetic is
saturating or clamped. -/
theorem core_safety_amended (g : Game) (h : Reachable g) :
    drawPanics g = false ∧
    (updatePanics g = true ↔ g.score = U32_MOD - 1) := by
  obtain ⟨h1, _, _, hoff, hsc⟩ := reachable_inv h
  have hU : 1 ≤ U32_MOD := by decide
  constructor
  · simp only [drawPanics, decide_eq_false_iff_not, not_lt]
    simp only [JUMP_HEIGHT] at h1
    simp only [GAME_HEIGHT]
    omega
  · simp only [updatePanics, scoreAddOverflows, Bool.or_eq_true,
      decide_eq_true_eq]
    constructor
    · rintro (hcase | hcase)
      · omega
      · exfalso
        have hbig : (160 : Nat) ≤ USIZE_MAX := by decide
        simp only [GAME_WIDTH] at hoff hcase
        omega
    · intro hcase
      left
      omega

/-- Witness for the amended C8 at the initial state. -/
theorem core_safety_amended_witness :
    drawPanics (Game.new 0) = false ∧
    (updatePanics (Game.new 0) = true ↔ (Game.new 0).score = U32_MOD - 1) :=
  core_safety_amended _ (Reachable.init 0)

/-- C9: whenever `actor_height ≤ JUMP_HEIGHT`, every cell write of the
compositor is inside the fixed `GAME_HEIGHT × GAME_WIDTH` buffer; the
plane's row `GAME_HEIGHT - 2 - plane_y` lies between 3 and
`GAME_HEIGHT - 2 = 8`, its column 2 and the ground row `GAME_HEIGHT - 1`
are constant and in range, and obstacle writes are guarded by
`x < GAME_WIDTH`. -/
theorem draw_writes_in_bounds (g : Game) (h : g.plane_y ≤ JUMP_HEIGHT) :
    (∀ p ∈ g.drawWrites, p.1 < GAME_HEIGHT ∧ p.2 < GAME_WIDTH) ∧
    3 ≤ GAME_HEIGHT - 2 - g.plane_y ∧
    GAME_HEIGHT - 2 - g.plane_y ≤ GAME_HEIGHT - 2 := by
  simp only [JUMP_HEIGHT] at h
  refine ⟨?_, ?_, ?_⟩
  · intro p hp
    unfold Game.drawWrites at hp
    rcases List.mem_append.mp hp with hp | hp
    · rcases List.mem_append.mp hp with hp | hp
      · rcases List.mem_map.mp hp with ⟨x, _, rfl⟩
        exact ⟨by simp [GAME_HEIGHT], Nat.mod_lt _ (by decide)⟩
      · simp only [List.mem_singleton] at hp
        subst hp
        refine ⟨?_, by simp [GAME_WIDTH]⟩
        simp only [GAME_HEIGHT]
        omega
    · rcases List.mem_map.mp hp with ⟨ob, hob, rfl⟩
      have := (List.mem_filter.mp hob).2
      simp only [decide_eq_true_eq] at this
      exact ⟨by simp [GAME_HEIGHT], this⟩
  · simp only [GAME_HEIGHT]
    omega
  · simp only [GAME_HEIGHT]
    omega

/-- Witness for C9 at a concrete state at the jump apex with one obstacle. -/
theorem draw_writes_in_bounds_witness :
    Game.plane_y ⟨5, false, [(79, '🏠')], 0, 0, 0⟩ ≤ JUMP_HEIGHT ∧
    (∀ p ∈ Game.drawWrites ⟨5, false, [(79, '🏠')], 0, 0, 0⟩,
      p.1 < GAME_HEIGHT ∧ p.2 < GAME_WIDTH) :=
  ⟨by decide,
   (draw_writes_in_bounds ⟨5, false, [(79, '🏠')], 0, 0, 0⟩ (by decide)).1⟩

theorem getD_set {α : Type} (l : List α) (n m : Nat) (a d : α) :
    (l.set n a).getD m d = if n = m ∧ n < l.length then a else l.getD m d := by
  induction l generalizing n m with
  | nil => simp
  | cons hd tl ih =>
    cases n with
    | zero =>
      cases m with
      | zero => simp
      | succ m => simp
    | succ n =>
      cases m with
      | zero => simp
      | succ m =>
        simp only [List.set_cons_succ, List.getD_cons_succ, List.length_cons]
        rw [ih]
        have hiff : (n = m ∧ n < tl.length) ↔
            (n + 1 = m + 1 ∧ n + 1 < tl.length + 1) := by omega
        by_cases hc : n = m ∧ n < tl.length
        · rw [if_pos hc, if_pos (hiff.mp hc)]
        · rw [if_neg hc, if_neg (fun h => hc (hiff.mpr h))]

theorem getD_setCell (b : List (List Char)) (r c : Nat) (ch : Char)
    (r' : Nat) :
    (setCell b r c ch).getD r' [] =
      if r = r' ∧ r < b.length then (b.getD r []).set c ch
      else b.getD r' [] := by
  unfold setCell
  exact getD_set b r r' _ []

theorem length_setCell (b : List (List Char)) (r c : Nat) (ch : Char) :
    (setCell b r c ch).length = b.length := by
  unfold setCell
  exact List.length_set _ _ _

theorem length_writeRow (ps : List Nat) (row : List Char) :
    (writeRow ps row).length = row.length := by
  induction ps generalizing row with
  | nil => rfl
  | cons p ps ih =>
    show (writeRow ps (row.set p GROUND)).length = row.length
    rw [ih, List.length_set]

theorem getD_writeRow (ps : List Nat) (row : List Char) (c : Nat) :
    (writeRow ps row).getD c ' ' =
      if c ∈ ps ∧ c < row.length then GROUND else row.getD c ' ' := by
  induction ps generalizing row with
  | nil => simp [writeRow]
  | cons p ps ih =>
    show (writeRow ps (row.set p GROUND)).getD c ' ' = _
    rw [ih, List.length_set, getD_set]
    by_cases h1 : c ∈ ps ∧ c < row.length
    · rw [if_pos h1, if_pos ⟨List.mem_cons_of_mem p h1.1, h1.2⟩]
    · by_cases h2 : p = c ∧ p < row.length
      · rw [if_neg h1, if_pos h2,
          if_pos ⟨h2.1 ▸ List.mem_cons_self p ps, h2.1 ▸ h2.2⟩]
      · rw [if_neg h1, if_neg h2, if_neg ?_]
        rintro ⟨hc, hlen⟩
        rcases List.mem_cons.mp hc with rfl | hc
        · exact h2 ⟨rfl, hlen⟩
        · exact h1 ⟨hc, hlen⟩

theorem length_writeGround (cs : List Nat) (buf : List (List Char)) :
    (writeGround cs buf).length = buf.length := by
  induction cs generalizing buf with
  | nil => rfl
  | cons c cs ih =>
    show (writeGround cs (setCell buf (GAME_HEIGHT - 1) c GROUND)).length = _
    rw [ih, length_setCell]

theorem getD_writeGround (cs : List Nat) (buf : List (List Char)) (r : Nat) :
    (writeGround cs buf).getD r [] =
      if GAME_HEIGHT - 1 = r ∧ GAME_HEIGHT - 1 < buf.length then
        writeRow cs (buf.getD (GAME_HEIGHT - 1) [])
      else buf.getD r [] := by
  induction cs generalizing buf with
  | nil =>
    show buf.getD r [] = _
    split
    · rename_i hcond
      obtain ⟨h1, _⟩ := hcond
      subst h1
      rfl
    · rfl
  | cons c cs ih =>
    show (writeGround cs (setCell buf (GAME_HEIGHT - 1) c GROUND)).getD r [] = _
    rw [ih, length_setCell]
    by_cases hcond : GAME_HEIGHT - 1 = r ∧ GAME_HEIGHT - 1 < buf.length
    · rw [if_pos hcond, if_pos hcond]
      have hrow : (setCell buf (GAME_HEIGHT - 1) c GROUND).getD
          (GAME_HEIGHT - 1) [] = (buf.getD (GAME_HEIGHT - 1) []).set c GROUND := by
        rw [getD_setCell, if_pos ⟨rfl, hcond.2⟩]
      rw [hrow]
      rfl
    · rw [if_neg hcond, if_neg hcond, getD_setCell, if_neg hcond]

theorem draw_ground_fold (off : Nat) (buf : List (List Char)) :
    (List.range GAME_WIDTH).foldl
      (fun b x => setCell b (GAME_HEIGHT - 1) ((x + off) % GAME_WIDTH) GROUND)
      buf
    = writeGround ((List.range GAME_WIDTH).map
        (fun x => (x + off) % GAME_WIDTH)) buf := by
  rw [writeGround, List.foldl_map]

theorem ground_cols_cover (off c : Nat) (hc : c < GAME_WIDTH) :
    c ∈ (List.range GAME_WIDTH).map (fun x => (x + off) % GAME_WIDTH) := by
  refine List.mem_map.mpr
    ⟨(c + (GAME_WIDTH - off % GAME_WIDTH)) % GAME_WIDTH,
     List.mem_range.mpr (Nat.mod_lt _ (by decide)), ?_⟩
  simp only [GAME_WIDTH] at hc ⊢
  omega

theorem writeRow_cover (cs : List Nat) (row : List Char)
    (hcover : ∀ c, c < row.length → c ∈ cs) :
    writeRow cs row = List.replicate row.length GROUND := by
  apply List.ext_getElem
  · rw [length_writeRow, List.length_replicate]
  · intro c h1 h2
    rw [List.length_replicate] at h2
    rw [List.getElem_replicate]
    rw [← List.getD_eq_getElem _ ' ' h1]
    rw [getD_writeRow, if_pos ⟨hcover c h2, h2⟩]

theorem blank_row (r : Nat) (h : r < GAME_HEIGHT) :
    blankBuffer.getD r [] = List.replicate GAME_WIDTH ' ' := by
  unfold blankBuffer
  rw [List.getD_eq_getElem _ []
    (by rw [List.length_replicate]; exact h)]
  exact List.getElem_replicate _ _

theorem length_blankBuffer : blankBuffer.length = GAME_HEIGHT := by
  unfold blankBuffer
  exact List.length_replicate _ _

theorem ground_on_blank (off : Nat) :
    (List.range GAME_WIDTH).foldl
      (fun b x => setCell b (GAME_HEIGHT - 1) ((x + off) % GAME_WIDTH) GROUND)
      blankBuffer
    = blankBuffer.set (GAME_HEIGHT - 1)
        (List.replicate GAME_WIDTH GROUND) := by
  rw [draw_ground_fold]
  have hH : GAME_HEIGHT - 1 < blankBuffer.length := by
    rw [length_blankBuffer]
    simp [GAME_HEIGHT]
  have hgetD : ∀ r,
      (writeGround ((List.range GAME_WIDTH).map
        (fun x => (x + off) % GAME_WIDTH)) blankBuffer).getD r []
      = (blankBuffer.set (GAME_HEIGHT - 1)
          (List.replicate GAME_WIDTH GROUND)).getD r [] := by
    intro r
    rw [getD_writeGround, getD_set]
    by_cases hr : GAME_HEIGHT - 1 = r
    · rw [if_pos ⟨hr, hH⟩, if_pos ⟨hr, hH⟩]
      rw [blank_row _ (by rw [← length_blankBuffer]; exact hH)]
      rw [writeRow_cover _ _ (fun c hc =>
        ground_cols_cover off c (by
          rw [List.length_replicate] at hc; exact hc))]
      rw [List.length_replicate]
    · rw [if_neg (fun h => hr h.1), if_neg (fun h => hr h.1)]
  apply List.ext_getElem
  · rw [length_writeGround, List.length_set]
  · intro r h1 h2
    rw [← List.getD_eq_getElem _ [] h1, ← List.getD_eq_getElem _ [] h2]
    exact hgetD r

theorem obstacleFold_getD (l : List (Nat × Char)) (buf : List (List Char))
    (r : Nat) (hr : r ≠ GAME_HEIGHT - 2) :
    (l.foldl (fun b ob =>
        if ob.1 < GAME_WIDTH then setCell b (GAME_HEIGHT - 2) ob.1 ob.2 else b)
      buf).getD r [] = buf.getD r [] := by
  induction l generalizing buf with
  | nil => rfl
  | cons ob l ih =>
    rw [List.foldl_cons, ih]
    split
    · rw [getD_setCell, if_neg (fun h => hr h.1.symm)]
    · rfl

/-- C10: the bottom row of the composed buffer is entirely the ground glyph
for every scroll offset — the column map `x ↦ (x + offset) % GAME_WIDTH`
covers every column — and consequently the composed frame does not depend
on `ground_offset` at all: the scrolling offset is unobservable in the
output. -/
theorem ground_row_uniform (g : Game) :
    (∀ c, c < GAME_WIDTH → getCell g.draw (GAME_HEIGHT - 1) c = GROUND) ∧
    (∀ c, c < GAME_WIDTH →
      c ∈ (List.range GAME_WIDTH).map
        (fun x => (x + g.ground_offset) % GAME_WIDTH)) ∧
    (∀ o1 o2 : Nat, Game.draw { g with ground_offset := o1 }
        = Game.draw { g with ground_offset := o2 }) := by
  have hH : GAME_HEIGHT - 1 < blankBuffer.length := by
    rw [length_blankBuffer]
    simp [GAME_HEIGHT]
  refine ⟨?_, fun c hc => ground_cols_cover g.ground_offset c hc, ?_⟩
  · intro c hc
    simp only [Game.draw, getCell]
    rw [ground_on_blank]
    rw [obstacleFold_getD _ _ _ (by simp [GAME_HEIGHT])]
    rw [getD_setCell, if_neg ?hplane]
    case hplane =>
      rintro ⟨habs, -⟩
      simp only [GAME_HEIGHT] at habs
      omega
    rw [getD_set, if_pos ⟨rfl, hH⟩]
    rw [List.getD_eq_getElem _ ' '
      (by rw [List.length_replicate]; exact hc)]
    exact List.getElem_replicate _ _
  · intro o1 o2
    simp only [Game.draw]
    rw [ground_on_blank, ground_on_blank]

/-- Witness for C10 at the initial state: a bottom-row cell reads the ground
glyph, and two different offsets compose the same frame. -/
theorem ground_row_uniform_witness :
    getCell (Game.new 0).draw (GAME_HEIGHT - 1) 0 = GROUND ∧
    Game.draw { Game.new 0 with ground_offset := 3 }
      = Game.draw { Game.new 0 with ground_offset := 7 } :=
  ⟨(ground_row_uniform (Game.new 0)).1 0 (by decide),
   (ground_row_uniform (Game.new 0)).2.2 3 7⟩
